import Mathlib

/-!
Verification of the ThorBond reconciliation engine
(`src/lib/thorbondEngine.ts`).

The TypeScript class `ThorBondEngine` is shallowly embedded below.

Modelling conventions:

* JavaScript numbers are modelled by `JSNum`, the integer fragment of IEEE
  doubles together with the `NaN` sentinel.  All numeric memo fields in the
  repository's protocol are integers; `Number(s)` is modelled by `jsNumber`
  on optionally-signed decimal strings (with `Number("") = 0` as in JS),
  anything else parses to `NaN`.  `parseInt` is modelled by `jsParseInt`
  (longest decimal prefix).
* `memo.split(':')` is modelled by the executable `splitColon`, which has
  exactly the JS single-character-separator semantics (`"".split(':') =
  [""]`, separators at the ends produce empty fields).
* The network is a parameter: the node-state service consumed by
  `getBondInfoForUser` is an `oracle : String → Option NodeStateResponse`
  (`none` models a transport/HTTP failure, caught by the `try`/`catch`).
* Thrown `Error`s become `Except` values.  `EngineError` enumerates the
  messages thrown by the engine's read path; the encoders return their
  exact message strings.
* `new Date(action.timestamp / 1000000)` is modelled by carrying the
  underlying instant (the raw `timestamp` value): the conversion from a
  numeric instant to a calendar value is injective and not interpreted by
  any of the code under verification.
-/

/-- The integer fragment of a JavaScript number, plus the `NaN` sentinel. -/
inductive JSNum where
  | nan : JSNum
  | int : Int → JSNum
deriving DecidableEq

/-- JavaScript `x > 0` on a `JSNum` (`NaN > 0` is `false`). -/
def JSNum.gtZero : JSNum → Bool
  | .nan => false
  | .int n => 0 < n

/-- Decimal digit character for `d < 10` (used by the digit printer). -/
def digitChar : Nat → Char
  | 0 => '0'
  | 1 => '1'
  | 2 => '2'
  | 3 => '3'
  | 4 => '4'
  | 5 => '5'
  | 6 => '6'
  | 7 => '7'
  | 8 => '8'
  | 9 => '9'
  | _ => '*'

/-- Numeric value of a decimal digit character, `none` on anything else. -/
def digit? (c : Char) : Option Nat :=
  if '0' ≤ c ∧ c ≤ '9' then some (c.toNat - 48) else none

/-- Fuel-driven decimal printer for naturals (most significant digit first).
The fuel is only there to make the recursion structural; `natRepr` always
supplies enough. -/
def natReprAux : Nat → Nat → List Char
  | 0, _ => []
  | fuel + 1, n =>
    if n < 10 then [digitChar n]
    else natReprAux fuel (n / 10) ++ [digitChar (n % 10)]

/-- Decimal representation of a natural number, as JavaScript prints it. -/
def natRepr (n : Nat) : List Char := natReprAux (n + 1) n

/-- Decimal representation of an integer, as JavaScript template literals
print an integral number. -/
def jsIntRepr (n : Int) : String :=
  if n < 0 then String.mk ('-' :: natRepr n.natAbs) else String.mk (natRepr n.toNat)

/-- Accumulating decimal reader: fails on the first non-digit character. -/
def parseDigitsAux (acc : Nat) : List Char → Option Nat
  | [] => some acc
  | c :: cs =>
    match digit? c with
    | some d => parseDigitsAux (acc * 10 + d) cs
    | none => none

/-- Reads a non-empty all-digit character list as a natural number. -/
def parseDigits : List Char → Option Nat
  | [] => none
  | c :: cs => parseDigitsAux 0 (c :: cs)

/-- Model of JavaScript `Number(s)` on the integer fragment: the empty
string is `0`, an optionally-`-`-signed non-empty digit string is its
value, anything else is `NaN`. -/
def jsNumber (s : String) : JSNum :=
  match s.toList with
  | [] => .int 0
  | c :: cs =>
    if c = '-' then
      match parseDigits cs with
      | some n => .int (-(n : Int))
      | none => .nan
    else
      match parseDigits (c :: cs) with
      | some n => .int (n : Int)
      | none => .nan

/-- Model of JavaScript `parseInt(s)` on the integer fragment: value of the
longest optionally-signed decimal prefix, `NaN` when there is none. -/
def jsParseInt (s : String) : JSNum :=
  match s.toList with
  | [] => .nan
  | c :: cs =>
    if c = '-' then
      match parseDigits (cs.takeWhile (fun d => (digit? d).isSome)) with
      | some n => .int (-(n : Int))
      | none => .nan
    else
      match parseDigits ((c :: cs).takeWhile (fun d => (digit? d).isSome)) with
      | some n => .int (n : Int)
      | none => .nan

/-- Model of JavaScript `s.startsWith(p)`. -/
def jsStartsWith (s p : String) : Bool := p.toList.isPrefixOf s.toList

/-- Core of `split(':')`: accumulates the current field in reverse. -/
def splitColonCore : List Char → List Char → List (List Char)
  | [], acc => [acc.reverse]
  | c :: cs, acc =>
    if c = ':' then acc.reverse :: splitColonCore cs []
    else splitColonCore cs (c :: acc)

/-- Model of JavaScript `memo.split(':')`. -/
def splitColon (s : String) : List String :=
  (splitColonCore s.toList []).map String.mk

/-- Joins character-list fields with `:` separators (the shape of every
memo the encoders emit). -/
def joinColon : List (List Char) → List Char
  | [] => []
  | [l] => l
  | l :: ls => l ++ ':' :: joinColon ls

/-! ## Data model (`src/lib/thorbondEngine.ts`, interfaces and `types`) -/

/-- Decoded listing memo (interface `ListingMemo`, lines 39–45).  The
numeric fields hold whatever `Number(...)` produced, `NaN` included. -/
structure ListingMemo where
  nodeAddress : String
  operatorAddress : String
  minRune : JSNum
  maxRune : JSNum
  feePercentage : JSNum
deriving DecidableEq

/-- A materialized listing (the `Node` view object pushed by `getNodes`,
lines 121–128).  `createdAt` carries the underlying instant of
`new Date(action.timestamp / 1000000)`. -/
structure Node where
  operator : String
  address : String
  bondingCapacity : JSNum
  minimumBond : JSNum
  feePercentage : JSNum
  createdAt : JSNum
deriving DecidableEq

/-- One entry of the node-state service's bond-provider list
(`{bond_address, bond}`, line 149).  `bond` is a string on the wire. -/
structure BondProvider where
  bond_address : String
  bond : String
deriving DecidableEq

/-- A successful node-state response.  `bond_providers` is `none` when the
optional chain `response.data?.bond_providers?.providers` (line 146) is
absent at any level; `?? []` is modelled by `Option.getD []`. -/
structure NodeStateResponse where
  bond_providers : Option (List BondProvider)
deriving DecidableEq

/-- Result of `getBondInfoForUser` (lines 152–162). -/
structure BondInfo where
  isBondProvider : Bool
  bond : JSNum
deriving DecidableEq

/-- The whitelist-request status enum (line 355). -/
inductive RequestStatus where
  | pending
  | approved
  | rejected
  | bonded
deriving DecidableEq

/-- The `WhitelistRequest` view object pushed by `getWhitelistRequests`
(lines 367–384).  `createdAt` is modelled as for `Node`. -/
structure WhitelistRequest where
  node : Node
  walletAddress : String
  intendedBondAmount : Int
  status : RequestStatus
  createdAt : JSNum
deriving DecidableEq

/-- The nested send metadata of an indexer action (`metadata.send`,
lines 19–27); only `memo` is interpreted by the engine. -/
structure SendMetadata where
  memo : String
deriving DecidableEq

/-- A raw indexer action (interface `MidgardAction`, lines 10–29).  The
pass-through fields `in`/`out`/`pools`/`networkFees` are retained by the
code but never interpreted, so they are not modelled. -/
structure MidgardAction where
  typ : String
  date : String
  height : String
  status : String
  send : Option SendMetadata
deriving DecidableEq

/-- A normalized action (interface `ThorBondAction`, lines 4–8).  `memo` is
`data.memo`, i.e. `metadata?.send?.memo` (line 96); `timestamp` is
`parseInt(action.date)` (line 98).  The other `data` fields are carried by
the code but never read back. -/
structure ThorBondAction where
  typ : String
  memo : Option String
  timestamp : JSNum
deriving DecidableEq

/-- Errors thrown by the engine's read path:
`notInitialized` = `'ThorBondEngine not initialized'` (lines 104, 188, 318),
`invalidAddress` = `'Invalid THORChain address'` (line 139),
`fetchFailed` = `'Failed to retrieve bond info'` (line 165),
`nodeNotFound` = `'Node not found'` (line 347). -/
inductive EngineError where
  | notInitialized
  | invalidAddress
  | fetchFailed
  | nodeNotFound
deriving DecidableEq

/-- The engine's mutable state (fields `actions` and `isInitialized`,
lines 57–58). -/
structure ThorBondEngine where
  actions : List ThorBondAction
  initialized : Bool
deriving DecidableEq

/-- Parameters of `createListing` (interface `ListingParams`, lines 31–37). -/
structure ListingParams where
  nodeAddress : String
  operatorAddress : String
  minRune : Int
  maxRune : Int
  feePercentage : Int
deriving DecidableEq

/-- Parameters of `createWhitelistRequest` (interface
`WhitelistRequestParams`, lines 47–51). -/
structure WhitelistRequestParams where
  nodeAddress : String
  userAddress : String
  amount : Int
deriving DecidableEq

/-! ## Memo codec -/

/-- `parseListingMemo` (lines 69–84): split on `:`, require exactly 6
fields with leading tag `TB`, read the numeric fields permissively with
`Number(...)`.  The function is total: the source's `try`/`catch` can
never fire (`split` and `Number` do not throw), and every failure is the
`null` (here `none`) result. -/
def parseListingMemo (memo : String) : Option ListingMemo :=
  match splitColon memo with
  | [tag, nodeAddress, operatorAddress, minStr, maxStr, feeStr] =>
    if tag = "TB" then
      some { nodeAddress := nodeAddress, operatorAddress := operatorAddress,
             minRune := jsNumber minStr, maxRune := jsNumber maxStr,
             feePercentage := jsNumber feeStr }
    else none
  | _ => none

/-- The listing decode applied to an action inside `getNodes`
(lines 111–115): the `if (!memo) return` guard skips a missing memo and
the falsy empty string. -/
def decodeListingAction (a : ThorBondAction) : Option ListingMemo :=
  match a.memo with
  | none => none
  | some memo => if memo = "" then none else parseListingMemo memo

/-- The `Node` pushed for a fresh listing (lines 121–128). -/
def mkNode (lm : ListingMemo) (a : ThorBondAction) : Node :=
  { operator := lm.operatorAddress
    address := lm.nodeAddress
    bondingCapacity := lm.maxRune
    minimumBond := lm.minRune
    feePercentage := lm.feePercentage
    createdAt := a.timestamp }

/-- The `forEach` loop of `getNodes` (lines 110–129): `seen` is the
`processedAddresses` set, nodes are emitted in feed order and only for the
first occurrence of each node address. -/
def getNodesGo : List ThorBondAction → List String → List Node
  | [], _ => []
  | a :: rest, seen =>
    match decodeListingAction a with
    | none => getNodesGo rest seen
    | some lm =>
      if lm.nodeAddress ∈ seen then getNodesGo rest seen
      else mkNode lm a :: getNodesGo rest (lm.nodeAddress :: seen)

/-- The `Node` materialized by the first action in feed order whose memo
decodes to a listing for `addr` (the node that the first-seen-wins rule of
`getNodes` keeps for that address). -/
def firstListingNodeFor : List ThorBondAction → String → Option Node
  | [], _ => none
  | a :: rest, addr =>
    match decodeListingAction a with
    | some lm =>
      if lm.nodeAddress = addr then some (mkNode lm a)
      else firstListingNodeFor rest addr
    | none => firstListingNodeFor rest addr

namespace ThorBondEngine

/-- `getNodes` (lines 102–132). -/
def getNodes (e : ThorBondEngine) : Except EngineError (List Node) :=
  if e.initialized then .ok (getNodesGo e.actions []) else .error .notInitialized

/-- `getActions` (lines 186–191). -/
def getActions (e : ThorBondEngine) : Except EngineError (List ThorBondAction) :=
  if e.initialized then .ok e.actions else .error .notInitialized

end ThorBondEngine

/-- `transformMidgardAction` (lines 86–100): extract the memo from
`metadata?.send?.memo` and the timestamp from `parseInt(action.date)`. -/
def transformMidgardAction (a : MidgardAction) : ThorBondAction :=
  { typ := a.typ
    memo := a.send.map (fun s => s.memo)
    timestamp := jsParseInt a.date }

/-- `initialize` (lines 169–184): a no-op when already initialized,
otherwise the fetched page of indexer actions (here a parameter standing
for the network response) is normalized and cached and the flag is set. -/
def initializeEngine (fetched : List MidgardAction) (e : ThorBondEngine) : ThorBondEngine :=
  if e.initialized then e
  else { actions := fetched.map transformMidgardAction, initialized := true }

/-- `refreshActions` (lines 193–196): clear the flag, then re-run
initialization. -/
def refreshEngineActions (fetched : List MidgardAction) (e : ThorBondEngine) : ThorBondEngine :=
  initializeEngine fetched { e with initialized := false }

/-- `createListing` (lines 198–216): strict validation (address prefixes,
`minRune > 0`, `maxRune > minRune`, fee within 0–100), then the canonical
6-field memo. -/
def createListing (params : ListingParams) : Except String String :=
  if ¬ jsStartsWith params.nodeAddress "thor1" = true then
    .error "Invalid node address format"
  else if ¬ jsStartsWith params.operatorAddress "thor1" = true then
    .error "Invalid operator address format"
  else if params.minRune ≤ 0 then
    .error "Minimum RUNE amount must be greater than 0"
  else if params.maxRune ≤ params.minRune then
    .error "Maximum RUNE amount must be greater than minimum amount"
  else if params.feePercentage < 0 ∨ 100 < params.feePercentage then
    .error "Fee percentage must be between 0 and 100"
  else
    .ok ("TB:" ++ params.nodeAddress ++ ":" ++ params.operatorAddress ++ ":" ++
         jsIntRepr params.minRune ++ ":" ++ jsIntRepr params.maxRune ++ ":" ++
         jsIntRepr params.feePercentage)

/-- `createWhitelistRequest` (lines 260–272). -/
def createWhitelistRequest (params : WhitelistRequestParams) : Except String String :=
  if ¬ jsStartsWith params.nodeAddress "thor1" = true then
    .error "Invalid node address format"
  else if ¬ jsStartsWith params.userAddress "thor1" = true then
    .error "Invalid user address format"
  else if params.amount ≤ 0 then
    .error "Amount must be greater than 0"
  else
    .ok ("TB:" ++ params.nodeAddress ++ ":" ++ params.userAddress ++ ":" ++
         jsIntRepr params.amount)

/-- `getBondInfoForUser` (lines 134–167).  The oracle stands for the
node-state HTTP service; `oracle addr = none` models a transport/HTTP
failure, which the `catch` converts to `fetchFailed`. -/
def getBondInfoForUser (oracle : String → Option NodeStateResponse)
    (nodeAddress userAddress : String) : Except EngineError BondInfo :=
  if ¬ (jsStartsWith nodeAddress "thor1" = true ∧ jsStartsWith userAddress "thor1" = true) then
    .error .invalidAddress
  else
    match oracle nodeAddress with
    | none => .error .fetchFailed
    | some resp =>
      match (resp.bond_providers.getD []).find? (fun bp => bp.bond_address == userAddress) with
      | some provider => .ok { isBondProvider := true, bond := jsNumber provider.bond }
      | none => .ok { isBondProvider := false, bond := .int 0 }

/-- The inline whitelist-memo decode at the top of the reconciliation loop
(lines 331–340): 4 colon-separated fields, tag `TB`, both addresses
prefixed `thor1`, and an amount that is a number strictly greater
than 0. -/
def decodeWhitelistMemo (memo : String) : Option (String × String × Int) :=
  match splitColon memo with
  | [tag, nodeAddress, userAddress, amountStr] =>
    if tag = "TB" then
      if jsStartsWith nodeAddress "thor1" && jsStartsWith userAddress "thor1" then
        match jsNumber amountStr with
        | .nan => none
        | .int amount =>
          if amount ≤ 0 then none else some (nodeAddress, userAddress, amount)
      else none
    else none
  | _ => none

/-- The whitelist decode applied to an action (lines 328–340), including
the falsy-memo guard. -/
def decodeWhitelistAction (a : ThorBondAction) : Option (String × String × Int) :=
  match a.memo with
  | none => none
  | some memo => if memo = "" then none else decodeWhitelistMemo memo

/-- The status derivation of the reconciliation loop (lines 354–364):
start `pending`, upgrade to `approved` when the user is a bond provider,
and to `bonded` when additionally the bond is positive. -/
def computeStatus (bondInfo : BondInfo) : RequestStatus :=
  let status := RequestStatus.pending
  let status := if bondInfo.isBondProvider then RequestStatus.approved else status
  if bondInfo.isBondProvider && bondInfo.bond.gtZero then RequestStatus.bonded else status

/-- The `WhitelistRequest` pushed for a qualifying request
(lines 367–384). -/
def mkWhitelistRequest (node : Node) (userAddress : String) (amount : Int)
    (bondInfo : BondInfo) (a : ThorBondAction) : WhitelistRequest :=
  { node := node
    walletAddress := userAddress
    intendedBondAmount := amount
    status := computeStatus bondInfo
    createdAt := a.timestamp }

/-- The `for` loop of `getWhitelistRequests` (lines 324–387), returning
`(requestsOperator, requestsUser)`.  `nodes` is `this.getNodes()`: the
loop recomputes it each iteration, but the computation is pure so it is
hoisted here.  The first thrown error aborts the whole batch. -/
def whitelistLoop (oracle : String → Option NodeStateResponse) (nodes : List Node)
    (connectedAddress : String) :
    List ThorBondAction → Except EngineError (List WhitelistRequest × List WhitelistRequest)
  | [] => .ok ([], [])
  | a :: rest =>
    match decodeWhitelistAction a with
    | none => whitelistLoop oracle nodes connectedAddress rest
    | some (nodeAddress, userAddress, amount) =>
      match nodes.find? (fun node => node.address == nodeAddress) with
      | none => .error .nodeNotFound
      | some node =>
        if userAddress = connectedAddress ∨ node.operator = connectedAddress then
          match getBondInfoForUser oracle node.address userAddress with
          | .error e => .error e
          | .ok bondInfo =>
            match whitelistLoop oracle nodes connectedAddress rest with
            | .error e => .error e
            | .ok (ops, users) =>
              .ok ((if node.operator = connectedAddress then
                      [mkWhitelistRequest node userAddress amount bondInfo a] else []) ++ ops,
                   (if userAddress = connectedAddress then
                      [mkWhitelistRequest node userAddress amount bondInfo a] else []) ++ users)
        else whitelistLoop oracle nodes connectedAddress rest

/-- `getWhitelistRequests` (lines 316–393): gate on initialization, then
run the reconciliation loop over the cached actions against the registry
built from the same actions. -/
def getWhitelistRequests (oracle : String → Option NodeStateResponse)
    (e : ThorBondEngine) (connectedAddress : String) :
    Except EngineError (List WhitelistRequest × List WhitelistRequest) :=
  if e.initialized then
    whitelistLoop oracle (getNodesGo e.actions []) connectedAddress e.actions
  else .error .notInitialized

/-! ## String, digit and split lemmas -/

theorem toList_append (s t : String) : (s ++ t).toList = s.toList ++ t.toList := by
  cases s; cases t; rfl

theorem digit?_digitChar {n : Nat} (h : n < 10) : digit? (digitChar n) = some n := by
  interval_cases n <;> decide

theorem ne_of_digit?_isSome {c : Char} (h : (digit? c).isSome) : c ≠ ':' ∧ c ≠ '-' := by
  constructor <;> rintro rfl <;> revert h <;> decide

theorem natReprAux_digits {fuel n : Nat} (h : n < fuel) :
    ∀ c ∈ natReprAux fuel n, (digit? c).isSome := by
  induction fuel generalizing n with
  | zero => omega
  | succ fuel ih =>
    intro c hc
    unfold natReprAux at hc
    by_cases h10 : n < 10
    · simp only [if_pos h10, List.mem_singleton] at hc
      subst hc
      simp [digit?_digitChar h10]
    · simp only [if_neg h10, List.mem_append, List.mem_singleton] at hc
      rcases hc with hc | hc
      · have hdiv : n / 10 < fuel := by omega
        exact ih hdiv c hc
      · subst hc
        simp [digit?_digitChar (Nat.mod_lt _ (by omega))]

theorem natReprAux_ne_nil {fuel n : Nat} (h : n < fuel) : natReprAux fuel n ≠ [] := by
  cases fuel with
  | zero => omega
  | succ fuel =>
    unfold natReprAux
    by_cases h10 : n < 10 <;> simp [h10]

theorem parseDigitsAux_append (acc : Nat) (l1 l2 : List Char) :
    parseDigitsAux acc (l1 ++ l2) =
      match parseDigitsAux acc l1 with
      | some v => parseDigitsAux v l2
      | none => none := by
  induction l1 generalizing acc with
  | nil => simp [parseDigitsAux]
  | cons c cs ih =>
    have hl : parseDigitsAux acc (c :: (cs ++ l2)) =
        match digit? c with
        | some d => parseDigitsAux (acc * 10 + d) (cs ++ l2)
        | none => none := rfl
    have hr : parseDigitsAux acc (c :: cs) =
        match digit? c with
        | some d => parseDigitsAux (acc * 10 + d) cs
        | none => none := rfl
    rw [List.cons_append, hl, hr]
    cases digit? c with
    | none => rfl
    | some d => exact ih (acc * 10 + d)

theorem parseDigitsAux_natReprAux {fuel n : Nat} (h : n < fuel) (acc : Nat) :
    parseDigitsAux acc (natReprAux fuel n) =
      some (acc * 10 ^ (natReprAux fuel n).length + n) := by
  induction fuel generalizing n acc with
  | zero => omega
  | succ fuel ih =>
    unfold natReprAux
    by_cases h10 : n < 10
    · simp only [if_pos h10]
      unfold parseDigitsAux
      rw [digit?_digitChar h10]
      simp [parseDigitsAux]
    · simp only [if_neg h10]
      rw [parseDigitsAux_append]
      have hdiv : n / 10 < fuel := by omega
      rw [ih hdiv]
      unfold parseDigitsAux
      rw [digit?_digitChar (Nat.mod_lt _ (by omega))]
      simp only [parseDigitsAux, List.length_append, List.length_singleton]
      congr 1
      have hmod : 10 * (n / 10) + n % 10 = n := Nat.div_add_mod n 10
      have hexp : (acc * 10 ^ (natReprAux fuel (n / 10)).length + n / 10) * 10 + n % 10 =
          acc * (10 ^ (natReprAux fuel (n / 10)).length * 10) + (10 * (n / 10) + n % 10) := by
        ring
      rw [hexp, hmod, pow_succ]

theorem parseDigits_natRepr (n : Nat) : parseDigits (natRepr n) = some n := by
  have hne := natReprAux_ne_nil (Nat.lt_succ_self n)
  unfold natRepr
  cases hl : natReprAux (n + 1) n with
  | nil => exact absurd hl hne
  | cons c cs =>
    show parseDigitsAux 0 (c :: cs) = some n
    rw [← hl, parseDigitsAux_natReprAux (Nat.lt_succ_self n)]
    simp

theorem jsNumber_mk_cons (c : Char) (cs : List Char) :
    jsNumber (String.mk (c :: cs)) =
      if c = '-' then
        match parseDigits cs with
        | some n => JSNum.int (-(n : Int))
        | none => JSNum.nan
      else
        match parseDigits (c :: cs) with
        | some n => JSNum.int (n : Int)
        | none => JSNum.nan := rfl

theorem jsNumber_jsIntRepr (n : Int) : jsNumber (jsIntRepr n) = .int n := by
  unfold jsIntRepr
  by_cases hn : n < 0
  · simp only [if_pos hn]
    rw [jsNumber_mk_cons, if_pos rfl, parseDigits_natRepr]
    show JSNum.int (-((n.natAbs : Nat) : Int)) = JSNum.int n
    congr 1
    omega
  · simp only [if_neg hn]
    have hne := natReprAux_ne_nil (Nat.lt_succ_self n.toNat)
    cases hl : natRepr n.toNat with
    | nil => exact absurd hl hne
    | cons c cs =>
      rw [jsNumber_mk_cons]
      have hcd : (digit? c).isSome := by
        apply natReprAux_digits (Nat.lt_succ_self n.toNat)
        rw [show natReprAux (n.toNat + 1) n.toNat = natRepr n.toNat from rfl, hl]
        exact List.mem_cons_self _ _
      have hcm : ¬ c = '-' := (ne_of_digit?_isSome hcd).2
      rw [if_neg hcm, ← hl, parseDigits_natRepr]
      show JSNum.int ((n.toNat : Nat) : Int) = JSNum.int n
      congr 1
      omega

theorem colon_not_mem_natRepr (m : Nat) : ':' ∉ natRepr m := by
  intro hm
  have := natReprAux_digits (Nat.lt_succ_self m) ':' hm
  revert this
  decide

theorem colon_not_mem_jsIntRepr (n : Int) : ':' ∉ (jsIntRepr n).toList := by
  unfold jsIntRepr
  by_cases hn : n < 0
  · simp only [if_pos hn]
    show ':' ∉ '-' :: natRepr n.natAbs
    intro hm
    rcases List.mem_cons.mp hm with hc | hc
    · exact absurd hc (by decide)
    · exact colon_not_mem_natRepr _ hc
  · simp only [if_neg hn]
    exact colon_not_mem_natRepr _

theorem splitColonCore_no_colon {l : List Char} (h : ':' ∉ l) (acc : List Char) :
    splitColonCore l acc = [acc.reverse ++ l] := by
  induction l generalizing acc with
  | nil => simp [splitColonCore]
  | cons c cs ih =>
    have hc : ¬ c = ':' := by rintro rfl; exact h (List.mem_cons_self _ _)
    show (if c = ':' then acc.reverse :: splitColonCore cs []
          else splitColonCore cs (c :: acc)) = _
    rw [if_neg hc, ih (fun hm => h (List.mem_cons_of_mem _ hm))]
    simp

theorem splitColonCore_append {l1 : List Char} (h : ':' ∉ l1) (l2 acc : List Char) :
    splitColonCore (l1 ++ ':' :: l2) acc = (acc.reverse ++ l1) :: splitColonCore l2 [] := by
  induction l1 generalizing acc with
  | nil => simp [splitColonCore]
  | cons c cs ih =>
    have hc : ¬ c = ':' := by rintro rfl; exact h (List.mem_cons_self _ _)
    show (if c = ':' then acc.reverse :: splitColonCore (cs ++ ':' :: l2) []
          else splitColonCore (cs ++ ':' :: l2) (c :: acc)) = _
    rw [if_neg hc, ih (fun hm => h (List.mem_cons_of_mem _ hm))]
    simp

theorem splitColonCore_joinColon {ls : List (List Char)} (hne : ls ≠ [])
    (h : ∀ l ∈ ls, ':' ∉ l) :
    splitColonCore (joinColon ls) [] = ls := by
  induction ls with
  | nil => exact absurd rfl hne
  | cons l ls ih =>
    cases ls with
    | nil =>
      show splitColonCore l [] = [l]
      rw [splitColonCore_no_colon (h l (List.mem_cons_self _ _)) []]
      simp
    | cons l2 ls2 =>
      show splitColonCore (l ++ ':' :: joinColon (l2 :: ls2)) [] = l :: l2 :: ls2
      rw [splitColonCore_append (h l (List.mem_cons_self _ _))]
      rw [ih (by simp) (fun m hm => h m (List.mem_cons_of_mem _ hm))]
      simp

/-! ## Concrete scenario used by the witnesses -/

/-- A listing action: node `thor1node`, operator `thor1op`, bounds
100/10000, fee 5. -/
def sampleListing : ThorBondAction :=
  { typ := "send", memo := some "TB:thor1node:thor1op:100:10000:5", timestamp := .int 1 }

/-- A second listing for the same node address with different parameters
(a later duplicate in feed order). -/
def dupListing : ThorBondAction :=
  { typ := "send", memo := some "TB:thor1node:thor1op2:7:8:9", timestamp := .int 9 }

/-- A whitelist request: user `thor1user` asks to bond 500 on
`thor1node`. -/
def sampleRequestAction : ThorBondAction :=
  { typ := "send", memo := some "TB:thor1node:thor1user:500", timestamp := .int 2 }

/-- An initialized engine caching the sample listing and request. -/
def sampleEngine : ThorBondEngine :=
  { actions := [sampleListing, sampleRequestAction], initialized := true }

/-- An initialized engine whose feed carries two listings for the same
node address. -/
def dupEngine : ThorBondEngine :=
  { actions := [sampleListing, dupListing], initialized := true }

/-- An initialized engine whose only action is a whitelist request for a
node absent from the registry. -/
def orphanEngine : ThorBondEngine :=
  { actions := [sampleRequestAction], initialized := true }

/-- An engine that has not been initialized. -/
def uninitEngine : ThorBondEngine := { actions := [], initialized := false }

/-- A total node-state oracle: `thor1user` is a bond provider with bond
`"0"` on `thor1node`; every other node resolves to an empty provider
list. -/
def sampleOracle (addr : String) : Option NodeStateResponse :=
  if addr = "thor1node" then
    some { bond_providers := some [{ bond_address := "thor1user", bond := "0" }] }
  else some { bond_providers := some [] }

/-- The node the sample engines materialize from `sampleListing`. -/
def sampleNode : Node :=
  { operator := "thor1op", address := "thor1node", bondingCapacity := .int 10000,
    minimumBond := .int 100, feePercentage := .int 5, createdAt := .int 1 }

/-- The reconciled view of `sampleRequestAction` for viewer `thor1user`:
the oracle reports a provider with zero bond, so the status is
`approved`. -/
def sampleRequest : WhitelistRequest :=
  { node := sampleNode, walletAddress := "thor1user", intendedBondAmount := 500,
    status := .approved, createdAt := .int 2 }

/-- A one-element indexer page (used to exercise `initializeEngine`). -/
def sampleFetched : List MidgardAction :=
  [{ typ := "send", date := "1700000000000000000", height := "100", status := "success",
     send := some { memo := "TB:thor1node:thor1op:100:10000:5" } }]

example : splitColon "TB:a:b" = ["TB", "a", "b"] := by decide
example : splitColon "" = [""] := by decide
example : getNodesGo sampleEngine.actions [] = [sampleNode] := rfl
example : getNodesGo dupEngine.actions [] = [sampleNode] := rfl
example : getNodesGo orphanEngine.actions [] = [] := rfl
example : decodeWhitelistAction sampleRequestAction = some ("thor1node", "thor1user", 500) := rfl
example : getWhitelistRequests sampleOracle sampleEngine "thor1user" =
    .ok ([], [sampleRequest]) := rfl
example : getWhitelistRequests sampleOracle orphanEngine "thor1user" =
    .error .nodeNotFound := rfl
example : jsNumber "-12" = .int (-12) := by decide
example : jsNumber "" = .int 0 := by decide
example : jsNumber "abc" = .nan := by decide
example : jsIntRepr (-105) = "-105" := by decide
example : jsNumber (jsIntRepr 10000) = .int 10000 := by decide
example : parseListingMemo "TB:thor1n:thor1o:100:10000:5" =
    some ⟨"thor1n", "thor1o", .int 100, .int 10000, .int 5⟩ := by decide
example : parseListingMemo "TB:x:y:1:2" = none := by decide
example : decodeWhitelistMemo "TB:thor1n:thor1u:500" = some ("thor1n", "thor1u", 500) := by
  decide
example : decodeWhitelistMemo "TB:n:thor1u:500" = none := by decide
example : createListing ⟨"thor1n", "thor1o", 100, 10000, 5⟩ =
    .ok "TB:thor1n:thor1o:100:10000:5" := rfl

theorem mk_toList (s : String) : String.mk s.toList = s := by
  cases s; rfl

theorem splitColon_joinColon {ls : List (List Char)} (hne : ls ≠ [])
    (h : ∀ l ∈ ls, ':' ∉ l) :
    splitColon (String.mk (joinColon ls)) = ls.map String.mk := by
  unfold splitColon
  rw [show (String.mk (joinColon ls)).toList = joinColon ls from rfl,
      splitColonCore_joinColon hne h]

theorem splitColon_six {f1 f2 f3 f4 f5 : String}
    (h1 : ':' ∉ f1.toList) (h2 : ':' ∉ f2.toList) (h3 : ':' ∉ f3.toList)
    (h4 : ':' ∉ f4.toList) (h5 : ':' ∉ f5.toList) :
    splitColon ("TB:" ++ f1 ++ ":" ++ f2 ++ ":" ++ f3 ++ ":" ++ f4 ++ ":" ++ f5) =
      ["TB", f1, f2, f3, f4, f5] := by
  have key : "TB:" ++ f1 ++ ":" ++ f2 ++ ":" ++ f3 ++ ":" ++ f4 ++ ":" ++ f5 =
      String.mk (joinColon
        [['T', 'B'], f1.toList, f2.toList, f3.toList, f4.toList, f5.toList]) := by
    apply String.ext
    show ("TB:" ++ f1 ++ ":" ++ f2 ++ ":" ++ f3 ++ ":" ++ f4 ++ ":" ++ f5).toList = _
    simp only [toList_append]
    show ("TB:").toList ++ f1.toList ++ (":").toList ++ f2.toList ++ (":").toList ++
        f3.toList ++ (":").toList ++ f4.toList ++ (":").toList ++ f5.toList =
      ['T', 'B'] ++ ':' :: (f1.toList ++ ':' :: (f2.toList ++ ':' ::
        (f3.toList ++ ':' :: (f4.toList ++ ':' :: f5.toList))))
    simp [List.append_assoc]
  rw [key, splitColon_joinColon (by simp)]
  · simp [mk_toList]
  · intro l hl
    simp only [List.mem_cons, List.not_mem_nil, or_false] at hl
    rcases hl with rfl | rfl | rfl | rfl | rfl | rfl
    · decide
    · exact h1
    · exact h2
    · exact h3
    · exact h4
    · exact h5

theorem splitColon_four {f1 f2 f3 : String}
    (h1 : ':' ∉ f1.toList) (h2 : ':' ∉ f2.toList) (h3 : ':' ∉ f3.toList) :
    splitColon ("TB:" ++ f1 ++ ":" ++ f2 ++ ":" ++ f3) = ["TB", f1, f2, f3] := by
  have key : "TB:" ++ f1 ++ ":" ++ f2 ++ ":" ++ f3 =
      String.mk (joinColon [['T', 'B'], f1.toList, f2.toList, f3.toList]) := by
    apply String.ext
    show ("TB:" ++ f1 ++ ":" ++ f2 ++ ":" ++ f3).toList = _
    simp only [toList_append]
    show ("TB:").toList ++ f1.toList ++ (":").toList ++ f2.toList ++ (":").toList ++
        f3.toList =
      ['T', 'B'] ++ ':' :: (f1.toList ++ ':' :: (f2.toList ++ ':' :: f3.toList))
    simp [List.append_assoc]
  rw [key, splitColon_joinColon (by simp)]
  · simp [mk_toList]
  · intro l hl
    simp only [List.mem_cons, List.not_mem_nil, or_false] at hl
    rcases hl with rfl | rfl | rfl | rfl
    · decide
    · exact h1
    · exact h2
    · exact h3

/-! ## Registry lemmas (`getNodes`) -/

theorem getNodesGo_cons (a : ThorBondAction) (rest : List ThorBondAction)
    (seen : List String) :
    getNodesGo (a :: rest) seen =
      match decodeListingAction a with
      | none => getNodesGo rest seen
      | some lm =>
        if lm.nodeAddress ∈ seen then getNodesGo rest seen
        else mkNode lm a :: getNodesGo rest (lm.nodeAddress :: seen) := rfl

theorem getNodesGo_spec (l : List ThorBondAction) (seen : List String) :
    ((getNodesGo l seen).Pairwise fun n m => n.address ≠ m.address) ∧
    ∀ n ∈ getNodesGo l seen, n.address ∉ seen := by
  induction l generalizing seen with
  | nil => simp [getNodesGo]
  | cons a rest ih =>
    rw [getNodesGo_cons]
    cases decodeListingAction a with
    | none => exact ih seen
    | some lm =>
      by_cases hmem : lm.nodeAddress ∈ seen
      · simp only [if_pos hmem]
        exact ih seen
      · simp only [if_neg hmem]
        obtain ⟨ihp, ihs⟩ := ih (lm.nodeAddress :: seen)
        refine ⟨List.Pairwise.cons ?_ ihp, ?_⟩
        · intro m hm hcontra
          exact ihs m hm (by rw [← hcontra]; exact List.mem_cons_self _ _)
        · intro n hn
          rcases List.mem_cons.mp hn with rfl | hn
          · exact hmem
          · exact fun hn2 => ihs n hn (List.mem_cons_of_mem _ hn2)

theorem firstListingNodeFor_cons (a : ThorBondAction) (rest : List ThorBondAction)
    (addr : String) :
    firstListingNodeFor (a :: rest) addr =
      match decodeListingAction a with
      | some lm =>
        if lm.nodeAddress = addr then some (mkNode lm a)
        else firstListingNodeFor rest addr
      | none => firstListingNodeFor rest addr := rfl

theorem find?_cons_eq (p : Node → Bool) (n : Node) (l : List Node) :
    List.find? p (n :: l) = if p n then some n else List.find? p l := by
  by_cases hp : p n = true
  · rw [List.find?_cons_of_pos l hp, if_pos hp]
  · rw [List.find?_cons_of_neg l hp, if_neg hp]

theorem getNodesGo_find? (l : List ThorBondAction) (seen : List String) (addr : String)
    (h : addr ∉ seen) :
    (getNodesGo l seen).find? (fun n => n.address == addr) = firstListingNodeFor l addr := by
  induction l generalizing seen with
  | nil => simp [getNodesGo, firstListingNodeFor]
  | cons a rest ih =>
    rw [getNodesGo_cons, firstListingNodeFor_cons]
    cases decodeListingAction a with
    | none => exact ih seen h
    | some lm =>
      by_cases heq : lm.nodeAddress = addr
      · have hnotseen : ¬ lm.nodeAddress ∈ seen := by rw [heq]; exact h
        simp only [if_neg hnotseen, if_pos heq]
        rw [find?_cons_eq]
        simp [mkNode, heq]
      · by_cases hmem : lm.nodeAddress ∈ seen
        · simp only [if_pos hmem, if_neg heq]
          exact ih seen h
        · simp only [if_neg hmem, if_neg heq]
          rw [find?_cons_eq]
          have hrec : (getNodesGo rest (lm.nodeAddress :: seen)).find?
              (fun n => n.address == addr) = firstListingNodeFor rest addr := by
            refine ih (lm.nodeAddress :: seen) ?_
            intro hmem2
            rcases List.mem_cons.mp hmem2 with rfl | hmem2
            · exact heq rfl
            · exact h hmem2
          simp [mkNode, heq, hrec]

/-! ## Whitelist reconciliation lemmas -/

theorem whitelistLoop_nil (oracle : String → Option NodeStateResponse)
    (nodes : List Node) (viewer : String) :
    whitelistLoop oracle nodes viewer [] = .ok ([], []) := rfl

theorem whitelistLoop_cons (oracle : String → Option NodeStateResponse)
    (nodes : List Node) (viewer : String) (a : ThorBondAction)
    (rest : List ThorBondAction) :
    whitelistLoop oracle nodes viewer (a :: rest) =
      match decodeWhitelistAction a with
      | none => whitelistLoop oracle nodes viewer rest
      | some (nodeAddress, userAddress, amount) =>
        match nodes.find? (fun node => node.address == nodeAddress) with
        | none => .error .nodeNotFound
        | some node =>
          if userAddress = viewer ∨ node.operator = viewer then
            match getBondInfoForUser oracle node.address userAddress with
            | .error e => .error e
            | .ok bondInfo =>
              match whitelistLoop oracle nodes viewer rest with
              | .error e => .error e
              | .ok (ops, users) =>
                .ok ((if node.operator = viewer then
                        [mkWhitelistRequest node userAddress amount bondInfo a] else []) ++ ops,
                     (if userAddress = viewer then
                        [mkWhitelistRequest node userAddress amount bondInfo a] else []) ++ users)
          else whitelistLoop oracle nodes viewer rest := rfl

theorem decodeWhitelistMemo_some {memo n u : String} {amt : Int}
    (h : decodeWhitelistMemo memo = some (n, u, amt)) :
    jsStartsWith n "thor1" = true ∧ jsStartsWith u "thor1" = true ∧ 0 < amt := by
  unfold decodeWhitelistMemo at h
  split at h
  · rename_i tag nodeAddress userAddress amountStr
    split at h
    · split at h
      · rename_i htag hpre
        split at h
        · exact absurd h (by simp)
        · rename_i amount
          split at h
          · exact absurd h (by simp)
          · rename_i hle
            simp only [Option.some.injEq, Prod.mk.injEq] at h
            obtain ⟨rfl, rfl, rfl⟩ := h
            rw [Bool.and_eq_true] at hpre
            exact ⟨hpre.1, hpre.2, by omega⟩
      · exact absurd h (by simp)
    · exact absurd h (by simp)
  · exact absurd h (by simp)

theorem decodeWhitelistAction_some {a : ThorBondAction} {n u : String} {amt : Int}
    (h : decodeWhitelistAction a = some (n, u, amt)) :
    jsStartsWith n "thor1" = true ∧ jsStartsWith u "thor1" = true ∧ 0 < amt := by
  unfold decodeWhitelistAction at h
  split at h
  · exact absurd h (by simp)
  · split at h
    · exact absurd h (by simp)
    · exact decodeWhitelistMemo_some h

theorem getBondInfoForUser_ok (oracle : String → Option NodeStateResponse)
    {na ua : String} (hna : jsStartsWith na "thor1" = true)
    (hua : jsStartsWith ua "thor1" = true) (htot : oracle na ≠ none) :
    ∃ bi, getBondInfoForUser oracle na ua = .ok bi := by
  unfold getBondInfoForUser
  rw [if_neg (by simp [hna, hua])]
  cases ho : oracle na with
  | none => exact absurd ho htot
  | some resp =>
    simp only []
    cases hf : (resp.bond_providers.getD []).find? (fun bp => bp.bond_address == ua) with
    | none => exact ⟨{ isBondProvider := false, bond := .int 0 }, by simp [hf]⟩
    | some provider =>
      exact ⟨{ isBondProvider := true, bond := jsNumber provider.bond }, by simp [hf]⟩

theorem getBondInfoForUser_not_notInitialized (oracle : String → Option NodeStateResponse)
    (na ua : String) :
    getBondInfoForUser oracle na ua ≠ .error .notInitialized ∧
    getBondInfoForUser oracle na ua ≠ .error .nodeNotFound := by
  unfold getBondInfoForUser
  split
  · simp
  · split
    · simp
    · split <;> simp

theorem computeStatus_cases (bi : BondInfo) :
    (bi.isBondProvider = false → computeStatus bi = .pending) ∧
    (bi.isBondProvider = true → bi.bond.gtZero = false → computeStatus bi = .approved) ∧
    (bi.isBondProvider = true → bi.bond.gtZero = true → computeStatus bi = .bonded) ∧
    computeStatus bi ≠ .rejected := by
  unfold computeStatus
  obtain ⟨bp, bond⟩ := bi
  cases bp <;> cases hz : bond.gtZero <;> simp [hz]

theorem whitelistLoop_skip {oracle : String → Option NodeStateResponse}
    {nodes : List Node} {viewer : String} {a : ThorBondAction}
    (h : decodeWhitelistAction a = none) (rest : List ThorBondAction) :
    whitelistLoop oracle nodes viewer (a :: rest) =
      whitelistLoop oracle nodes viewer rest := by
  rw [whitelistLoop_cons]
  simp only [h]

theorem whitelistLoop_ok_sound {oracle : String → Option NodeStateResponse}
    {nodes : List Node} {viewer : String} :
    ∀ {l : List ThorBondAction} {ops users : List WhitelistRequest},
      whitelistLoop oracle nodes viewer l = .ok (ops, users) →
      (∀ r ∈ users, r.walletAddress = viewer ∧
         ∃ bi, getBondInfoForUser oracle r.node.address r.walletAddress = .ok bi ∧
           r.status = computeStatus bi) ∧
      (∀ r ∈ ops, r.node.operator = viewer ∧
         ∃ bi, getBondInfoForUser oracle r.node.address r.walletAddress = .ok bi ∧
           r.status = computeStatus bi) := by
  intro l
  induction l with
  | nil =>
    intro ops users h
    rw [whitelistLoop_nil] at h
    simp only [Except.ok.injEq, Prod.mk.injEq] at h
    obtain ⟨h1, h2⟩ := h
    subst h1
    subst h2
    simp
  | cons a rest ih =>
    intro ops users h
    rw [whitelistLoop_cons] at h
    cases hd : decodeWhitelistAction a with
    | none =>
      simp only [hd] at h
      exact ih h
    | some d =>
      obtain ⟨n, u, amt⟩ := d
      simp only [hd] at h
      cases hf : nodes.find? (fun node => node.address == n) with
      | none =>
        simp only [hf] at h
        exact Except.noConfusion h
      | some node =>
        simp only [hf] at h
        by_cases hq : u = viewer ∨ node.operator = viewer
        · rw [if_pos hq] at h
          cases hbi : getBondInfoForUser oracle node.address u with
          | error e =>
            simp only [hbi] at h
            exact Except.noConfusion h
          | ok bi =>
            simp only [hbi] at h
            cases hrest : whitelistLoop oracle nodes viewer rest with
            | error e =>
              simp only [hrest] at h
              exact Except.noConfusion h
            | ok pr =>
              obtain ⟨ops2, users2⟩ := pr
              simp only [hrest] at h
              simp only [Except.ok.injEq, Prod.mk.injEq] at h
              obtain ⟨hops, husers⟩ := h
              subst hops
              subst husers
              obtain ⟨ihu, iho⟩ := ih hrest
              constructor
              · intro r hr
                rcases List.mem_append.mp hr with hr | hr
                · by_cases hu : u = viewer
                  · rw [if_pos hu] at hr
                    rcases List.mem_singleton.mp hr with rfl
                    exact ⟨hu, bi, hbi, rfl⟩
                  · rw [if_neg hu] at hr
                    exact absurd hr (List.not_mem_nil _)
                · exact ihu r hr
              · intro r hr
                rcases List.mem_append.mp hr with hr | hr
                · by_cases ho : node.operator = viewer
                  · rw [if_pos ho] at hr
                    rcases List.mem_singleton.mp hr with rfl
                    exact ⟨ho, bi, hbi, rfl⟩
                  · rw [if_neg ho] at hr
                    exact absurd hr (List.not_mem_nil _)
                · exact iho r hr
        · rw [if_neg hq] at h
          exact ih h

theorem whitelistLoop_missing_node {oracle : String → Option NodeStateResponse}
    {nodes : List Node} {viewer : String}
    (htot : ∀ addr, oracle addr ≠ none) :
    ∀ {l : List ThorBondAction},
      (∃ b ∈ l, ∃ n u amt, decodeWhitelistAction b = some (n, u, amt) ∧
        nodes.find? (fun node => node.address == n) = none) →
      whitelistLoop oracle nodes viewer l = .error .nodeNotFound := by
  intro l
  induction l with
  | nil =>
    rintro ⟨b, hb, -⟩
    exact absurd hb (List.not_mem_nil b)
  | cons a rest ih =>
    rintro ⟨b, hb, n, u, amt, hdec, hfind⟩
    rw [whitelistLoop_cons]
    rcases List.mem_cons.mp hb with rfl | hb
    · simp only [hdec, hfind]
    · have hrec := ih ⟨b, hb, n, u, amt, hdec, hfind⟩
      cases hda : decodeWhitelistAction a with
      | none =>
        simp only []
        exact hrec
      | some d =>
        obtain ⟨n1, u1, amt1⟩ := d
        simp only []
        cases hf1 : nodes.find? (fun node => node.address == n1) with
        | none => simp only []
        | some node1 =>
          simp only []
          by_cases hq : u1 = viewer ∨ node1.operator = viewer
          · rw [if_pos hq]
            obtain ⟨hpn, hpu, -⟩ := decodeWhitelistAction_some hda
            have hp := List.find?_some hf1
            have haddr : node1.address = n1 := beq_iff_eq.mp hp
            obtain ⟨bi, hbi⟩ := getBondInfoForUser_ok oracle
              (by rw [haddr]; exact hpn) hpu (htot node1.address)
            simp only [hbi, hrec]
          · rw [if_neg hq]
            exact hrec

theorem whitelistLoop_complete {oracle : String → Option NodeStateResponse}
    {nodes : List Node} {viewer : String} :
    ∀ {l : List ThorBondAction} {ops users : List WhitelistRequest},
      whitelistLoop oracle nodes viewer l = .ok (ops, users) →
      ∀ b ∈ l, ∀ n u amt, decodeWhitelistAction b = some (n, u, amt) →
        ∀ node, nodes.find? (fun nd => nd.address == n) = some node →
          (u = viewer → ∃ bi, getBondInfoForUser oracle node.address u = .ok bi ∧
              mkWhitelistRequest node u amt bi b ∈ users) ∧
          (node.operator = viewer → ∃ bi, getBondInfoForUser oracle node.address u = .ok bi ∧
              mkWhitelistRequest node u amt bi b ∈ ops) := by
  intro l
  induction l with
  | nil =>
    intro ops users h b hb
    exact absurd hb (List.not_mem_nil b)
  | cons a rest ih =>
    intro ops users h b hb n u amt hdec node hfind
    rw [whitelistLoop_cons] at h
    rcases List.mem_cons.mp hb with rfl | hb
    · simp only [hdec, hfind] at h
      constructor
      · intro hu
        rw [if_pos (Or.inl hu)] at h
        cases hbi : getBondInfoForUser oracle node.address u with
        | error e =>
          simp only [hbi] at h
          exact Except.noConfusion h
        | ok bi =>
          simp only [hbi] at h
          cases hrest : whitelistLoop oracle nodes viewer rest with
          | error e =>
            simp only [hrest] at h
            exact Except.noConfusion h
          | ok pr =>
            obtain ⟨ops2, users2⟩ := pr
            simp only [hrest] at h
            simp only [Except.ok.injEq, Prod.mk.injEq] at h
            obtain ⟨hops, husers⟩ := h
            refine ⟨bi, rfl, ?_⟩
            rw [← husers]
            refine List.mem_append_left _ ?_
            rw [if_pos hu]
            exact List.mem_singleton.mpr rfl
      · intro hop
        rw [if_pos (Or.inr hop)] at h
        cases hbi : getBondInfoForUser oracle node.address u with
        | error e =>
          simp only [hbi] at h
          exact Except.noConfusion h
        | ok bi =>
          simp only [hbi] at h
          cases hrest : whitelistLoop oracle nodes viewer rest with
          | error e =>
            simp only [hrest] at h
            exact Except.noConfusion h
          | ok pr =>
            obtain ⟨ops2, users2⟩ := pr
            simp only [hrest] at h
            simp only [Except.ok.injEq, Prod.mk.injEq] at h
            obtain ⟨hops, husers⟩ := h
            refine ⟨bi, rfl, ?_⟩
            rw [← hops]
            refine List.mem_append_left _ ?_
            rw [if_pos hop]
            exact List.mem_singleton.mpr rfl
    · cases hda : decodeWhitelistAction a with
      | none =>
        simp only [hda] at h
        exact ih h b hb n u amt hdec node hfind
      | some d =>
        obtain ⟨n1, u1, amt1⟩ := d
        simp only [hda] at h
        cases hf1 : nodes.find? (fun nd => nd.address == n1) with
        | none =>
          simp only [hf1] at h
          exact Except.noConfusion h
        | some node1 =>
          simp only [hf1] at h
          by_cases hq : u1 = viewer ∨ node1.operator = viewer
          · rw [if_pos hq] at h
            cases hbi1 : getBondInfoForUser oracle node1.address u1 with
            | error e =>
              simp only [hbi1] at h
              exact Except.noConfusion h
            | ok bi1 =>
              simp only [hbi1] at h
              cases hrest : whitelistLoop oracle nodes viewer rest with
              | error e =>
                simp only [hrest] at h
                exact Except.noConfusion h
              | ok pr =>
                obtain ⟨ops2, users2⟩ := pr
                simp only [hrest] at h
                simp only [Except.ok.injEq, Prod.mk.injEq] at h
                obtain ⟨hops, husers⟩ := h
                obtain ⟨hu2, ho2⟩ := ih hrest b hb n u amt hdec node hfind
                constructor
                · intro hu
                  obtain ⟨bi, hbi, hmem⟩ := hu2 hu
                  exact ⟨bi, hbi, by rw [← husers]; exact List.mem_append_right _ hmem⟩
                · intro hop
                  obtain ⟨bi, hbi, hmem⟩ := ho2 hop
                  exact ⟨bi, hbi, by rw [← hops]; exact List.mem_append_right _ hmem⟩
          · rw [if_neg hq] at h
            exact ih h b hb n u amt hdec node hfind

theorem whitelistLoop_ne_notInitialized (oracle : String → Option NodeStateResponse)
    (nodes : List Node) (viewer : String) :
    ∀ l, whitelistLoop oracle nodes viewer l ≠ .error .notInitialized := by
  intro l
  induction l with
  | nil => simp [whitelistLoop_nil]
  | cons a rest ih =>
    rw [whitelistLoop_cons]
    cases hda : decodeWhitelistAction a with
    | none =>
      simp only []
      exact ih
    | some d =>
      obtain ⟨n, u, amt⟩ := d
      simp only []
      cases hf : nodes.find? (fun node => node.address == n) with
      | none =>
        simp only []
        simp
      | some node =>
        simp only []
        by_cases hq : u = viewer ∨ node.operator = viewer
        · rw [if_pos hq]
          cases hbi : getBondInfoForUser oracle node.address u with
          | error e =>
            simp only []
            intro hc
            injection hc with he
            subst he
            exact (getBondInfoForUser_not_notInitialized oracle node.address u).1 hbi
          | ok bi =>
            simp only []
            cases hrest : whitelistLoop oracle nodes viewer rest with
            | error e =>
              simp only []
              intro hc
              injection hc with he
              subst he
              exact ih hrest
            | ok pr =>
              obtain ⟨ops2, users2⟩ := pr
              simp only []
              simp
        · rw [if_neg hq]
          exact ih

/-! ## Codec characterization lemmas -/

theorem parseListingMemo_none_iff (memo : String) :
    parseListingMemo memo = none ↔
      ((splitColon memo).length ≠ 6 ∨ (splitColon memo).head? ≠ some "TB") := by
  cases hl : splitColon memo with
  | nil => simp [parseListingMemo, hl]
  | cons t l1 =>
    cases l1 with
    | nil => simp [parseListingMemo, hl]
    | cons f1 l2 =>
      cases l2 with
      | nil => simp [parseListingMemo, hl]
      | cons f2 l3 =>
        cases l3 with
        | nil => simp [parseListingMemo, hl]
        | cons f3 l4 =>
          cases l4 with
          | nil => simp [parseListingMemo, hl]
          | cons f4 l5 =>
            cases l5 with
            | nil => simp [parseListingMemo, hl]
            | cons f5 l6 =>
              cases l6 with
              | nil => by_cases ht : t = "TB" <;> simp [parseListingMemo, hl, ht]
              | cons f6 l7 => simp [parseListingMemo, hl]

theorem decodeWhitelistMemo_shape_none {memo : String}
    (h : (splitColon memo).length ≠ 4 ∨ (splitColon memo).head? ≠ some "TB") :
    decodeWhitelistMemo memo = none := by
  cases hl : splitColon memo with
  | nil => simp [decodeWhitelistMemo, hl]
  | cons t l1 =>
    cases l1 with
    | nil => simp [decodeWhitelistMemo, hl]
    | cons f1 l2 =>
      cases l2 with
      | nil => simp [decodeWhitelistMemo, hl]
      | cons f2 l3 =>
        cases l3 with
        | nil => simp [decodeWhitelistMemo, hl]
        | cons f3 l4 =>
          cases l4 with
          | nil =>
            rw [hl] at h
            rcases h with h | h
            · simp at h
            · have ht : ¬ t = "TB" := by simpa using h
              simp [decodeWhitelistMemo, hl, ht]
          | cons f4 l5 => simp [decodeWhitelistMemo, hl]

theorem parseListingMemo_encode {p : ListingParams}
    (h1 : ':' ∉ p.nodeAddress.toList) (h2 : ':' ∉ p.operatorAddress.toList) :
    parseListingMemo ("TB:" ++ p.nodeAddress ++ ":" ++ p.operatorAddress ++ ":" ++
        jsIntRepr p.minRune ++ ":" ++ jsIntRepr p.maxRune ++ ":" ++
        jsIntRepr p.feePercentage) =
      some { nodeAddress := p.nodeAddress, operatorAddress := p.operatorAddress,
             minRune := .int p.minRune, maxRune := .int p.maxRune,
             feePercentage := .int p.feePercentage } := by
  unfold parseListingMemo
  rw [splitColon_six h1 h2 (colon_not_mem_jsIntRepr _) (colon_not_mem_jsIntRepr _)
      (colon_not_mem_jsIntRepr _)]
  simp [jsNumber_jsIntRepr]

theorem decodeWhitelistMemo_encode {p : WhitelistRequestParams}
    (h1 : ':' ∉ p.nodeAddress.toList) (h2 : ':' ∉ p.userAddress.toList)
    (hn : jsStartsWith p.nodeAddress "thor1" = true)
    (hu : jsStartsWith p.userAddress "thor1" = true)
    (hamt : 0 < p.amount) :
    decodeWhitelistMemo ("TB:" ++ p.nodeAddress ++ ":" ++ p.userAddress ++ ":" ++
        jsIntRepr p.amount) = some (p.nodeAddress, p.userAddress, p.amount) := by
  unfold decodeWhitelistMemo
  rw [splitColon_four h1 h2 (colon_not_mem_jsIntRepr _)]
  simp only [if_true]
  rw [if_pos (by simp [hn, hu]), jsNumber_jsIntRepr]
  simp only []
  rw [if_neg (by omega)]

/-! ## Engine read-path inversion lemmas -/

theorem getNodes_ok_inv {e : ThorBondEngine} {ns : List Node}
    (h : e.getNodes = .ok ns) :
    e.initialized = true ∧ ns = getNodesGo e.actions [] := by
  unfold ThorBondEngine.getNodes at h
  by_cases hi : e.initialized = true
  · rw [if_pos hi] at h
    injection h with h
    exact ⟨hi, h.symm⟩
  · rw [if_neg hi] at h
    exact Except.noConfusion h

theorem getWhitelistRequests_eq {oracle : String → Option NodeStateResponse}
    {e : ThorBondEngine} {viewer : String} (h : e.initialized = true) :
    getWhitelistRequests oracle e viewer =
      whitelistLoop oracle (getNodesGo e.actions []) viewer e.actions := by
  unfold getWhitelistRequests
  rw [if_pos h]

theorem getWhitelistRequests_ok_inv {oracle : String → Option NodeStateResponse}
    {e : ThorBondEngine} {viewer : String} {ops users : List WhitelistRequest}
    (h : getWhitelistRequests oracle e viewer = .ok (ops, users)) :
    e.initialized = true ∧
    whitelistLoop oracle (getNodesGo e.actions []) viewer e.actions = .ok (ops, users) := by
  unfold getWhitelistRequests at h
  by_cases hi : e.initialized = true
  · rw [if_pos hi] at h
    exact ⟨hi, h⟩
  · rw [if_neg hi] at h
    exact Except.noConfusion h

/-! ## Claim theorems -/

/-- C1 (counterexample): the memo `TB:thor1node:thor1op:-1:-2:200`
violates every documented numeric range (negative `minBond`,
`maxBond` not exceeding `minBond`, fee above 100), yet `parseListingMemo`
decodes it and `getNodes` materializes a `Node` from it — contradicting
the claim that such memos decode to absent. -/
theorem listing_decode_range_unchecked_cex :
    parseListingMemo "TB:thor1node:thor1op:-1:-2:200" =
      some { nodeAddress := "thor1node", operatorAddress := "thor1op",
             minRune := .int (-1), maxRune := .int (-2),
             feePercentage := .int 200 } ∧
    ThorBondEngine.getNodes
        { actions := [{ typ := "send", memo := some "TB:thor1node:thor1op:-1:-2:200",
                        timestamp := .int 0 }], initialized := true } =
      .ok [{ operator := "thor1op", address := "thor1node",
             bondingCapacity := .int (-2), minimumBond := .int (-1),
             feePercentage := .int 200, createdAt := .int 0 }] :=
  ⟨rfl, rfl⟩

/-- C1 (amended): `parseListingMemo` returns absent exactly for structural
mismatches — a field count other than 6 or a first field other than the
literal `TB` tag.  The numeric ranges are not validated at decode, so a
structurally valid memo decodes to a listing whatever its numeric fields
hold, and registry construction materializes a `Node` from it. -/
theorem listing_decode_structural_only :
    (∀ memo : String, parseListingMemo memo = none ↔
      ((splitColon memo).length ≠ 6 ∨ (splitColon memo).head? ≠ some "TB")) ∧
    (∀ (a : ThorBondAction) (lm : ListingMemo), decodeListingAction a = some lm →
      getNodesGo [a] [] = [mkNode lm a]) := by
  constructor
  · exact parseListingMemo_none_iff
  · intro a lm h
    rw [getNodesGo_cons]
    simp only [h]
    rw [if_neg (List.not_mem_nil _)]
    rfl

/-- C1 (witness): the registry built from the single range-violating
listing above is the one-node list that the amended claim predicts. -/
theorem listing_decode_structural_only_witness :
    parseListingMemo "TB:x" = none ∧
    getNodesGo [{ typ := "send", memo := some "TB:thor1node:thor1op:-1:-2:200",
                  timestamp := .int 0 }] [] =
      [{ operator := "thor1op", address := "thor1node", bondingCapacity := .int (-2),
         minimumBond := .int (-1), feePercentage := .int 200, createdAt := .int 0 }] :=
  ⟨(listing_decode_structural_only.1 "TB:x").mpr (Or.inl (by decide)),
   listing_decode_structural_only.2 _
     { nodeAddress := "thor1node", operatorAddress := "thor1op", minRune := .int (-1),
       maxRune := .int (-2), feePercentage := .int 200 } rfl⟩

/-- C2: the registry produced by `getNodes` contains at most one `Node`
per distinct node address, and for every address the `Node` it holds is
the one built from the first action in stored feed order whose memo
decodes to a listing for that address — later duplicates are discarded. -/
theorem registry_dedup_first_wins (e : ThorBondEngine) (ns : List Node)
    (h : e.getNodes = .ok ns) :
    (ns.Pairwise fun n m => n.address ≠ m.address) ∧
    ∀ addr, ns.find? (fun n => n.address == addr) = firstListingNodeFor e.actions addr := by
  obtain ⟨hi, hns⟩ := getNodes_ok_inv h
  subst hns
  exact ⟨(getNodesGo_spec e.actions []).1,
    fun addr => getNodesGo_find? e.actions [] addr (List.not_mem_nil _)⟩

/-- C2 (witness): with two listings for `thor1node` in feed order, the
registry keeps exactly the first one's parameters. -/
theorem registry_dedup_first_wins_witness :
    ((getNodesGo dupEngine.actions []).Pairwise fun n m => n.address ≠ m.address) ∧
    (getNodesGo dupEngine.actions []).find? (fun n => n.address == "thor1node") =
      firstListingNodeFor dupEngine.actions "thor1node" :=
  ⟨(registry_dedup_first_wins dupEngine _ rfl).1,
   (registry_dedup_first_wins dupEngine _ rfl).2 "thor1node"⟩

/-- C3: the status the reconciliation pass assigns is determined exactly
by the oracle result: a non-provider is `pending` whatever the bonded
amount, a provider with bond 0 is `approved`, a provider with positive
bond is `bonded`, and no request emitted by `getWhitelistRequests` ever
carries `rejected`. -/
theorem whitelist_status_rules :
    (∀ bi : BondInfo, bi.isBondProvider = false → computeStatus bi = .pending) ∧
    (∀ bi : BondInfo, bi.isBondProvider = true → bi.bond = .int 0 →
      computeStatus bi = .approved) ∧
    (∀ (bi : BondInfo) (k : Int), bi.isBondProvider = true → bi.bond = .int k → 0 < k →
      computeStatus bi = .bonded) ∧
    (∀ (oracle : String → Option NodeStateResponse) (e : ThorBondEngine) (viewer : String)
       (ops users : List WhitelistRequest),
      getWhitelistRequests oracle e viewer = .ok (ops, users) →
      ∀ r, (r ∈ ops ∨ r ∈ users) → r.status ≠ .rejected) := by
  refine ⟨?_, ?_, ?_, ?_⟩
  · intro bi hb
    exact (computeStatus_cases bi).1 hb
  · intro bi hb hz
    refine (computeStatus_cases bi).2.1 hb ?_
    rw [hz]
    rfl
  · intro bi k hb hz hk
    refine (computeStatus_cases bi).2.2.1 hb ?_
    rw [hz]
    exact decide_eq_true hk
  · intro oracle e viewer ops users h r hr
    obtain ⟨hi, hloop⟩ := getWhitelistRequests_ok_inv h
    obtain ⟨hu, ho⟩ := whitelistLoop_ok_sound hloop
    rcases hr with hr | hr
    · obtain ⟨-, bi, -, hs⟩ := ho r hr
      rw [hs]
      exact (computeStatus_cases bi).2.2.2
    · obtain ⟨-, bi, -, hs⟩ := hu r hr
      rw [hs]
      exact (computeStatus_cases bi).2.2.2

/-- C3 (witness): the four oracle cases of the spec, plus the reconciled
sample request, whose status is not `rejected`. -/
theorem whitelist_status_rules_witness :
    computeStatus { isBondProvider := false, bond := .int 50 } = .pending ∧
    computeStatus { isBondProvider := true, bond := .int 0 } = .approved ∧
    computeStatus { isBondProvider := true, bond := .int 50 } = .bonded ∧
    sampleRequest.status ≠ .rejected :=
  ⟨whitelist_status_rules.1 _ rfl,
   whitelist_status_rules.2.1 _ rfl rfl,
   whitelist_status_rules.2.2.1 _ 50 rfl rfl (by omega),
   whitelist_status_rules.2.2.2 sampleOracle sampleEngine "thor1user" [] [sampleRequest]
     rfl sampleRequest (Or.inr (List.mem_singleton.mpr rfl))⟩

/-- C4: when some cached action decodes to a whitelist request whose node
address resolves to no `Node` in the registry built from the same actions,
`getWhitelistRequests` fails with the `Node not found` invariant violation
and aborts the whole batch (engine initialized, node-state service
reachable) instead of skipping the request. -/
theorem missing_node_aborts_batch (oracle : String → Option NodeStateResponse)
    (e : ThorBondEngine) (viewer : String)
    (hinit : e.initialized = true)
    (htot : ∀ addr, oracle addr ≠ none)
    (hbad : ∃ b ∈ e.actions, ∃ n u amt, decodeWhitelistAction b = some (n, u, amt) ∧
      (getNodesGo e.actions []).find? (fun node => node.address == n) = none) :
    getWhitelistRequests oracle e viewer = .error .nodeNotFound := by
  rw [getWhitelistRequests_eq hinit]
  exact whitelistLoop_missing_node htot hbad

/-- C4 (witness): an engine holding only a whitelist request (no listing)
aborts with the node-not-found error. -/
theorem missing_node_aborts_batch_witness :
    getWhitelistRequests sampleOracle orphanEngine "thor1user" = .error .nodeNotFound :=
  missing_node_aborts_batch sampleOracle orphanEngine "thor1user" rfl
    (fun addr => by unfold sampleOracle; split <;> simp)
    ⟨sampleRequestAction, List.mem_singleton.mpr rfl, "thor1node", "thor1user", 500,
      rfl, rfl⟩

/-- C5: in a successful reconciliation, every request in the user output
has the viewer as its user, every request in the operator output has the
viewer as its node's operator (so a request in both outputs forces
`userAddress = operatorAddress`), and conversely every decodable request
with a resolved node lands in the user output when the viewer is its user
and in the operator output when the viewer is its node's operator. -/
theorem viewer_partition (oracle : String → Option NodeStateResponse)
    (e : ThorBondEngine) (viewer : String) (ops users : List WhitelistRequest)
    (h : getWhitelistRequests oracle e viewer = .ok (ops, users)) :
    (∀ r ∈ users, r.walletAddress = viewer) ∧
    (∀ r ∈ ops, r.node.operator = viewer) ∧
    (∀ r, r ∈ users → r ∈ ops → r.walletAddress = r.node.operator) ∧
    (∀ b ∈ e.actions, ∀ n u amt, decodeWhitelistAction b = some (n, u, amt) →
      ∀ node, (getNodesGo e.actions []).find? (fun nd => nd.address == n) = some node →
        (u = viewer → ∃ bi, getBondInfoForUser oracle node.address u = .ok bi ∧
            mkWhitelistRequest node u amt bi b ∈ users) ∧
        (node.operator = viewer → ∃ bi, getBondInfoForUser oracle node.address u = .ok bi ∧
            mkWhitelistRequest node u amt bi b ∈ ops)) := by
  obtain ⟨hi, hloop⟩ := getWhitelistRequests_ok_inv h
  obtain ⟨hu, ho⟩ := whitelistLoop_ok_sound hloop
  refine ⟨fun r hr => (hu r hr).1, fun r hr => (ho r hr).1, ?_, ?_⟩
  · intro r hru hro
    rw [(hu r hru).1, (ho r hro).1]
  · exact whitelistLoop_complete hloop

/-- C5 (witness): in the sample run for viewer `thor1user` the emitted
user request indeed carries the viewer as its wallet address. -/
theorem viewer_partition_witness : sampleRequest.walletAddress = "thor1user" :=
  (viewer_partition sampleOracle sampleEngine "thor1user" [] [sampleRequest] rfl).1
    sampleRequest (List.mem_singleton.mpr rfl)

/-- C6: while the engine is not Ready every read operation fails with the
not-initialized error, and once initialization has completed none of them
raises it: `getNodes` and `getActions` succeed outright, and
`getWhitelistRequests` can fail only for other reasons. -/
theorem read_gating_lifecycle :
    (∀ e : ThorBondEngine, e.initialized = false →
      e.getNodes = .error .notInitialized ∧
      e.getActions = .error .notInitialized ∧
      ∀ (oracle : String → Option NodeStateResponse) (viewer : String),
        getWhitelistRequests oracle e viewer = .error .notInitialized) ∧
    (∀ (fetched : List MidgardAction) (e : ThorBondEngine),
      (initializeEngine fetched e).initialized = true ∧
      (∃ ns, (initializeEngine fetched e).getNodes = .ok ns) ∧
      (∃ as, (initializeEngine fetched e).getActions = .ok as) ∧
      ∀ (oracle : String → Option NodeStateResponse) (viewer : String),
        getWhitelistRequests oracle (initializeEngine fetched e) viewer ≠
          .error .notInitialized) := by
  constructor
  · intro e he
    have hfalse : ¬ e.initialized = true := by simp [he]
    refine ⟨?_, ?_, ?_⟩
    · unfold ThorBondEngine.getNodes
      rw [if_neg hfalse]
    · unfold ThorBondEngine.getActions
      rw [if_neg hfalse]
    · intro oracle viewer
      unfold getWhitelistRequests
      rw [if_neg hfalse]
  · intro fetched e
    have hinit : (initializeEngine fetched e).initialized = true := by
      unfold initializeEngine
      by_cases hi : e.initialized = true
      · rw [if_pos hi]
        exact hi
      · rw [if_neg hi]
    refine ⟨hinit, ⟨getNodesGo (initializeEngine fetched e).actions [], ?_⟩,
      ⟨(initializeEngine fetched e).actions, ?_⟩, ?_⟩
    · unfold ThorBondEngine.getNodes
      rw [if_pos hinit]
    · unfold ThorBondEngine.getActions
      rw [if_pos hinit]
    · intro oracle viewer
      rw [getWhitelistRequests_eq hinit]
      exact whitelistLoop_ne_notInitialized oracle _ viewer _

/-- C6 (witness): the uninitialized engine rejects `getNodes`, and
initialization flips the flag so reads stop failing that way. -/
theorem read_gating_lifecycle_witness :
    uninitEngine.getNodes = .error .notInitialized ∧
    (initializeEngine sampleFetched uninitEngine).initialized = true ∧
    getWhitelistRequests sampleOracle (initializeEngine sampleFetched uninitEngine)
      "thor1user" ≠ .error .notInitialized :=
  ⟨(read_gating_lifecycle.1 uninitEngine rfl).1,
   (read_gating_lifecycle.2 sampleFetched uninitEngine).1,
   (read_gating_lifecycle.2 sampleFetched uninitEngine).2.2.2 sampleOracle "thor1user"⟩

/-- C7: on a successful node-state response, `getBondInfoForUser` reports
non-provider with zero bond whenever the provider list — a missing list
being treated as the empty one, not as an error — holds no entry for the
user, and reports provider with that entry's bond when one exists. -/
theorem bond_info_lookup (oracle : String → Option NodeStateResponse)
    (na ua : String) (resp : NodeStateResponse)
    (hna : jsStartsWith na "thor1" = true) (hua : jsStartsWith ua "thor1" = true)
    (hresp : oracle na = some resp) :
    (resp.bond_providers = none →
      getBondInfoForUser oracle na ua = .ok { isBondProvider := false, bond := .int 0 }) ∧
    ((resp.bond_providers.getD []).find? (fun bp => bp.bond_address == ua) = none →
      getBondInfoForUser oracle na ua = .ok { isBondProvider := false, bond := .int 0 }) ∧
    (∀ p, (resp.bond_providers.getD []).find? (fun bp => bp.bond_address == ua) = some p →
      getBondInfoForUser oracle na ua =
        .ok { isBondProvider := true, bond := jsNumber p.bond }) := by
  have hbase : getBondInfoForUser oracle na ua =
      match (resp.bond_providers.getD []).find? (fun bp => bp.bond_address == ua) with
      | some provider => .ok { isBondProvider := true, bond := jsNumber provider.bond }
      | none => .ok { isBondProvider := false, bond := .int 0 } := by
    unfold getBondInfoForUser
    rw [if_neg (by simp [hna, hua]), hresp]
  refine ⟨?_, ?_, ?_⟩
  · intro hnone
    rw [hbase, hnone]
    rfl
  · intro hfind
    rw [hbase, hfind]
  · intro p hfind
    rw [hbase, hfind]

/-- C7 (witness): the sample oracle's entry for `thor1user` is found and
its bond string is parsed. -/
theorem bond_info_lookup_witness :
    getBondInfoForUser sampleOracle "thor1node" "thor1user" =
      .ok { isBondProvider := true, bond := jsNumber "0" } :=
  (bond_info_lookup sampleOracle "thor1node" "thor1user"
      { bond_providers := some [{ bond_address := "thor1user", bond := "0" }] }
      rfl rfl rfl).2.2 { bond_address := "thor1user", bond := "0" } rfl

/-- C8: a memo whose first colon-separated field differs from the `TB` tag
or whose field count differs from the expected shape (6 for listings, 4
for whitelist requests) decodes to absent; both decoders are total
functions into `Option`, so no memo makes them throw. -/
theorem decode_structural_mismatch_absent :
    (∀ memo : String,
      ((splitColon memo).length ≠ 6 ∨ (splitColon memo).head? ≠ some "TB") →
      parseListingMemo memo = none) ∧
    (∀ memo : String,
      ((splitColon memo).length ≠ 4 ∨ (splitColon memo).head? ≠ some "TB") →
      decodeWhitelistMemo memo = none) :=
  ⟨fun memo h => (parseListingMemo_none_iff memo).mpr h,
   fun _ h => decodeWhitelistMemo_shape_none h⟩

/-- C8 (witness): a five-field listing memo and a wrongly-tagged whitelist
memo both decode to absent. -/
theorem decode_structural_mismatch_absent_witness :
    parseListingMemo "TB:a:b:1:2" = none ∧ decodeWhitelistMemo "XX:a:b:5" = none :=
  ⟨decode_structural_mismatch_absent.1 "TB:a:b:1:2" (Or.inl (by decide)),
   decode_structural_mismatch_absent.2 "XX:a:b:5" (Or.inr (by decide))⟩

/-- C9: decoding a memo produced by an encoder on accepted parameters
(colon-free `thor1` addresses, the validated numeric ranges) recovers
exactly the original field values, for both memo kinds. -/
theorem encode_decode_roundtrip :
    (∀ (p : ListingParams) (memo : String),
      ':' ∉ p.nodeAddress.toList → ':' ∉ p.operatorAddress.toList →
      createListing p = .ok memo →
      parseListingMemo memo =
        some { nodeAddress := p.nodeAddress, operatorAddress := p.operatorAddress,
               minRune := .int p.minRune, maxRune := .int p.maxRune,
               feePercentage := .int p.feePercentage }) ∧
    (∀ (p : WhitelistRequestParams) (memo : String),
      ':' ∉ p.nodeAddress.toList → ':' ∉ p.userAddress.toList →
      createWhitelistRequest p = .ok memo →
      decodeWhitelistMemo memo = some (p.nodeAddress, p.userAddress, p.amount)) := by
  constructor
  · intro p memo h1 h2 henc
    unfold createListing at henc
    split_ifs at henc with hv1 hv2 hv3 hv4 hv5
    injection henc with hm
    subst hm
    exact parseListingMemo_encode h1 h2
  · intro p memo h1 h2 henc
    unfold createWhitelistRequest at henc
    split_ifs at henc with hw1 hw2 hw3
    injection henc with hm
    subst hm
    exact decodeWhitelistMemo_encode h1 h2 hw1 hw2 (by omega)

/-- C9 (witness): the two sample memos round-trip. -/
theorem encode_decode_roundtrip_witness :
    parseListingMemo "TB:thor1n:thor1o:100:10000:5" =
      some { nodeAddress := "thor1n", operatorAddress := "thor1o", minRune := .int 100,
             maxRune := .int 10000, feePercentage := .int 5 } ∧
    decodeWhitelistMemo "TB:thor1n:thor1u:500" = some ("thor1n", "thor1u", 500) :=
  ⟨encode_decode_roundtrip.1 (⟨"thor1n", "thor1o", 100, 10000, 5⟩ : ListingParams)
      "TB:thor1n:thor1o:100:10000:5" (by decide) (by decide) rfl,
   encode_decode_roundtrip.2 (⟨"thor1n", "thor1u", 500⟩ : WhitelistRequestParams)
      "TB:thor1n:thor1u:500" (by decide) (by decide) rfl⟩

/-- C10: a 4-field `TB` whitelist memo decodes exactly when both addresses
carry the `thor1` prefix and the amount field parses to a number strictly
greater than zero — a `NaN` amount or an un-prefixed address makes the
decode absent — and an action whose memo fails this decode is skipped
silently by the reconciliation loop: no node lookup, no oracle query, no
error, and no contribution to either output. -/
theorem whitelist_decode_strictness (memo n u s : String)
    (h : splitColon memo = ["TB", n, u, s]) :
    ((∃ r, decodeWhitelistMemo memo = some r) ↔
      (jsStartsWith n "thor1" = true ∧ jsStartsWith u "thor1" = true ∧
        ∃ k : Int, 0 < k ∧ jsNumber s = .int k)) ∧
    (∀ (oracle : String → Option NodeStateResponse) (nodes : List Node) (viewer : String)
       (a : ThorBondAction) (rest : List ThorBondAction),
      decodeWhitelistAction a = none →
      whitelistLoop oracle nodes viewer (a :: rest) =
        whitelistLoop oracle nodes viewer rest) := by
  constructor
  · unfold decodeWhitelistMemo
    rw [h]
    simp only [if_true]
    constructor
    · rintro ⟨r, hr⟩
      by_cases hpre : (jsStartsWith n "thor1" && jsStartsWith u "thor1") = true
      · rw [if_pos hpre] at hr
        rw [Bool.and_eq_true] at hpre
        cases hjs : jsNumber s with
        | nan =>
          simp only [hjs] at hr
          exact Option.noConfusion hr
        | int k =>
          simp only [hjs] at hr
          by_cases hk : k ≤ 0
          · rw [if_pos hk] at hr
            exact Option.noConfusion hr
          · exact ⟨hpre.1, hpre.2, k, by omega, rfl⟩
      · rw [if_neg hpre] at hr
        exact Option.noConfusion hr
    · rintro ⟨hn, hu, k, hk, hjs⟩
      rw [if_pos (by simp [hn, hu]), hjs]
      simp only []
      rw [if_neg (by omega)]
      exact ⟨(n, u, k), rfl⟩
  · intro oracle nodes viewer a rest hskip
    exact whitelistLoop_skip hskip rest

/-- C10 (witness): an action whose whitelist memo carries the non-numeric
amount `abc` is skipped silently, leaving the loop's result empty. -/
theorem whitelist_decode_strictness_witness :
    whitelistLoop sampleOracle [] "thor1x"
      [{ typ := "send", memo := some "TB:thor1node:thor1user:abc", timestamp := .int 0 }] =
      .ok ([], []) :=
  ((whitelist_decode_strictness "TB:thor1node:thor1user:abc" "thor1node" "thor1user" "abc"
      (by decide)).2 sampleOracle [] "thor1x"
      { typ := "send", memo := some "TB:thor1node:thor1user:abc", timestamp := .int 0 }
      [] rfl).trans (whitelistLoop_nil sampleOracle [] "thor1x")
